import Mathlib

/-!
Shallow embedding of the period-overlap cost aggregation engine of the
subscription service (src/internal/service/subscription.go), together with
the data-model helpers it relies on, and proofs of the specified properties.

Conventions of the embedding:
* Go `time.Time` values constructed by this service are always
  `time.Date(year, month, 1, 0, 0, 0, 0, time.UTC)`: day 1 of some month at
  midnight UTC.  Such an instant is uniquely determined by its month index
  `year*12 + (month-1)` (Go normalises an out-of-range month by carrying
  into the year, which is exactly what the index form computes), and
  `After`/`Before` on two such instants coincide with comparison of the
  indices.  `Year()`/`Month()` recover the calendar fields by floor
  division, matching Go's calendar normalisation.
* Go strings are `List Char`; `strings.Split` with the one-character
  separator is modelled by `splitOnChar`, and `strconv.Atoi` by
  `goAtoi` (optional sign, then at least one decimal digit).
* Go's `int` is a 64-bit machine integer whose multiplication and addition
  wrap; the cost loop's arithmetic on prices is therefore computed through
  `wrap64`, the two's-complement reduction into `[-2^63, 2^63)`.  The date
  arithmetic itself never leaves the tiny range the accepted years span.
* Fallible operations return `Option`/`Except`.  `parsePeriod` in Go indexes
  `parts[1]` unconditionally; the `none` result models the index-out-of-range
  runtime fault raised when the input has no separator.
-/

namespace EmSubscription

/-- A Go `time.Time` instant of the restricted form this service constructs
(day 1 of a month, midnight UTC), represented by its month index
`year*12 + (month-1)`. -/
structure GoTime where
  monthIndex : Int
deriving DecidableEq, Repr

/-- Go `time.Date(year, time.Month(month), 1, 0, 0, 0, 0, time.UTC)`.
Go normalises `month` outside `[1,12]` by carrying into the year; the month
index computes the same instant. -/
def timeDate (year month : Int) : GoTime :=
  ⟨year * 12 + (month - 1)⟩

/-- Go `a.After(b)` on the instants above. -/
def GoTime.After (a b : GoTime) : Bool :=
  b.monthIndex < a.monthIndex

/-- Go `a.Before(b)` on the instants above. -/
def GoTime.Before (a b : GoTime) : Bool :=
  a.monthIndex < b.monthIndex

/-- Go `t.Year()`: the calendar year, i.e. the floor of the month index over
12. -/
def GoTime.Year (t : GoTime) : Int :=
  t.monthIndex.fdiv 12

/-- Go `int(t.Month())`: the calendar month in `[1,12]`. -/
def GoTime.Month (t : GoTime) : Int :=
  t.monthIndex.fmod 12 + 1

/-- The helper `maxTime` from subscription.go: the later of two times. -/
def maxTime (a b : GoTime) : GoTime :=
  if a.After b then a else b

/-- The helper `minTime` from subscription.go: the earlier of two times. -/
def minTime (a b : GoTime) : GoTime :=
  if a.Before b then a else b

/-- The function `calculateOverlapMonths` from subscription.go: the inclusive count of
calendar months common to `[periodStart, periodEnd]` and
`[subStart, subEnd]`. -/
def calculateOverlapMonths (periodStart periodEnd subStart subEnd : GoTime) : Int :=
  let overlapStart := maxTime periodStart subStart
  let overlapEnd := minTime periodEnd subEnd
  if overlapStart.After overlapEnd then 0
  else
    let yearDiff := overlapEnd.Year - overlapStart.Year
    let monthDiff := overlapEnd.Month - overlapStart.Month
    yearDiff * 12 + monthDiff + 1

/-- Go `strings.Split` for a one-character separator: the result always has
one more element than the number of separator occurrences, so it is never
empty; splitting the empty string yields `[[]]`. -/
def splitOnChar (sep : Char) : List Char → List (List Char)
  | [] => [[]]
  | c :: rest =>
    if c = sep then [] :: splitOnChar sep rest
    else
      match splitOnChar sep rest with
      | [] => [[c]]
      | h :: t => (c :: h) :: t

/-- Decimal digit test used by the `strconv.Atoi` model. -/
def isDigit (c : Char) : Bool :=
  '0' ≤ c && c ≤ '9'

/-- Numeric value of a decimal digit character. -/
def digitVal (c : Char) : Int :=
  (c.toNat : Int) - ((('0').toNat : Nat) : Int)

/-- Accumulating decimal parse: succeeds only when every character is a
digit. -/
def digitsAcc : List Char → Int → Option Int
  | [], acc => some acc
  | c :: rest, acc =>
    if isDigit c then digitsAcc rest (acc * 10 + digitVal c) else none

/-- Go `strconv.Atoi`: an optional leading sign, then at least one decimal
digit and nothing else.  Overflow of the 64-bit result is not modelled (it
can only occur for magnitudes the validator's range check rejects anyway,
and then only changes the value a discarded-error caller observes). -/
def goAtoi (s : List Char) : Option Int :=
  match s with
  | [] => none
  | '+' :: rest =>
    match rest with
    | [] => none
    | _ => digitsAcc rest 0
  | '-' :: rest =>
    match rest with
    | [] => none
    | _ => (digitsAcc rest 0).map (fun n => -n)
  | _ => digitsAcc s 0

/-- The validator `isValidDateFormat` from subscription.go: split on the separator, demand
exactly two components, both parsing as integers, month in `[1,12]` and year
in `[1900,9999]`. -/
def isValidDateFormat (date : List Char) : Bool :=
  match splitOnChar '-' date with
  | [p0, p1] =>
    match goAtoi p0, goAtoi p1 with
    | some month, some year =>
      decide (1 ≤ month ∧ month ≤ 12 ∧ 1900 ≤ year ∧ year ≤ 9999)
    | _, _ => false
  | _ => false

/-- The parser `parsePeriod` from subscription.go.  The Go code indexes `parts[0]` and
`parts[1]` unconditionally and discards the `Atoi` errors (a failed `Atoi`
yields 0); `none` models the index-out-of-range runtime fault raised when
the input contains no separator, the only way the function can fail. -/
def parsePeriod (period : List Char) : Option GoTime :=
  match splitOnChar '-' period with
  | p0 :: p1 :: _ =>
    let month := (goAtoi p0).getD 0
    let year := (goAtoi p1).getD 0
    some (timeDate year month)
  | _ => none

/-- The fields of `models.Subscription` the aggregation reads (the record's
identity, owner, service name and timestamps never reach the cost
computation).  `price` holds the value of the record's Go `int` field; all
arithmetic the loop performs on it goes through `wrap64`. -/
structure Subscription where
  price : Int
  startDate : List Char
  endDate : Option (List Char)
deriving DecidableEq, Repr

/-- Outcomes of `GetTotalCost` other than a total: the two validation
errors it returns, and the runtime fault `parsePeriod` can raise on a
malformed stored date (which in Go aborts the computation rather than
returning an error value). -/
inductive CostError where
  | invalidFormat
  | invalidRange
  | indexOutOfRange
deriving DecidableEq, Repr

/-- Two's-complement wrap of Go's 64-bit `int` arithmetic: the value in
`[-2^63, 2^63)` congruent to `n` modulo `2^64`. -/
def wrap64 (n : Int) : Int :=
  (n + 2 ^ 63) % 2 ^ 64 - 2 ^ 63

/-- One iteration of the `GetTotalCost` loop body: the contribution of a
single subscription record, `none` when `parsePeriod` faults on a stored
date string.  The price-times-overlap product is 64-bit machine
multiplication, so it wraps. -/
def subCost (startPeriod endPeriod : GoTime) (sub : Subscription) : Option Int :=
  match parsePeriod sub.startDate with
  | none => none
  | some subStart =>
    match sub.endDate with
    | none =>
      some (if !(subStart.Before startPeriod) && !(subStart.After endPeriod)
            then sub.price else 0)
    | some endStr =>
      match parsePeriod endStr with
      | none => none
      | some subEnd =>
        some (wrap64
          (sub.price * calculateOverlapMonths startPeriod endPeriod subStart subEnd))

/-- The `GetTotalCost` accumulation loop over the fetched records, starting
from `acc` (`totalCost := 0` at the call site).  The `totalCost +=`
addition is 64-bit machine addition, so it wraps. -/
def loopTotal (startPeriod endPeriod : GoTime) : List Subscription → Int → Option Int
  | [], acc => some acc
  | sub :: rest, acc =>
    match subCost startPeriod endPeriod sub with
    | none => none
    | some c => loopTotal startPeriod endPeriod rest (wrap64 (acc + c))

/-- The operation `GetTotalCost` from subscription.go, with the repository's already
fetched, already filtered record list passed in (storage and its failure
modes are external collaborators). -/
def getTotalCost (startStr endStr : List Char) (subs : List Subscription) :
    Except CostError Int :=
  if !(isValidDateFormat startStr) || !(isValidDateFormat endStr) then
    .error .invalidFormat
  else
    match parsePeriod startStr with
    | none => .error .indexOutOfRange
    | some startPeriod =>
      match parsePeriod endStr with
      | none => .error .indexOutOfRange
      | some endPeriod =>
        if startPeriod.After endPeriod then .error .invalidRange
        else
          match loopTotal startPeriod endPeriod subs 0 with
          | none => .error .indexOutOfRange
          | some totalCost => .ok totalCost

/-- The end-date guard of `Update` (subscription.go): format validation is
skipped when the field is absent or is the empty string, so an empty
end-date string is accepted and stored. -/
def updateEndDateAccepted (endDate : Option (List Char)) : Bool :=
  match endDate with
  | none => true
  | some v => if v = [] then true else isValidDateFormat v

/-- The spec's `CalendarMonth`: one (year, month) pair. -/
structure CalendarMonth where
  month : Int
  year : Int
deriving DecidableEq, Repr

/-- The spec's validity invariant for a `CalendarMonth`: month in `[1,12]`,
year in `[1900,9999]`. -/
def CalendarMonth.valid (c : CalendarMonth) : Prop :=
  1 ≤ c.month ∧ c.month ≤ 12 ∧ 1900 ≤ c.year ∧ c.year ≤ 9999

instance (c : CalendarMonth) : Decidable c.valid := by
  unfold CalendarMonth.valid
  infer_instance

/-- The spec's strict order on `CalendarMonth`: `a` is after `b` iff
`a.year > b.year`, or the years agree and `a.month > b.month`. -/
def cmAfter (a b : CalendarMonth) : Prop :=
  b.year < a.year ∨ (a.year = b.year ∧ b.month < a.month)

instance (a b : CalendarMonth) : Decidable (cmAfter a b) := by
  unfold cmAfter
  infer_instance

/-- The spec's non-strict order on `CalendarMonth`. -/
def cmLe (a b : CalendarMonth) : Prop :=
  a.year < b.year ∨ (a.year = b.year ∧ a.month ≤ b.month)

instance (a b : CalendarMonth) : Decidable (cmLe a b) := by
  unfold cmLe
  infer_instance

/-- The later of two `CalendarMonth`s under the spec's ordering, mirroring
`maxTime`. -/
def cmMax (a b : CalendarMonth) : CalendarMonth :=
  if cmAfter a b then a else b

/-- The earlier of two `CalendarMonth`s under the spec's ordering, mirroring
`minTime`. -/
def cmMin (a b : CalendarMonth) : CalendarMonth :=
  if cmAfter b a then a else b

/-- The instant `parsePeriod` produces for a `CalendarMonth`. -/
def toTime (c : CalendarMonth) : GoTime :=
  timeDate c.year c.month

/-- The spec's overlap-months computation (section 4.3), written directly on
`CalendarMonth` fields as the spec states it. -/
def specOverlapMonths (ws we ss se : CalendarMonth) : Int :=
  let es := cmMax ws ss
  let ee := cmMin we se
  if cmAfter es ee then 0
  else (ee.year - es.year) * 12 + (ee.month - es.month) + 1

/-- The two-field month-index view of a `CalendarMonth` (the spec's total
order is exactly comparison of these indices when the months are valid). -/
def cmIndex (c : CalendarMonth) : Int :=
  c.year * 12 + (c.month - 1)

/-- The per-record contribution rule of the `GetTotalCost` loop, on parsed
values: an open-ended record is charged once iff its start lies inclusively
in the window; a closed record is charged price times the overlap count. -/
def contribution (sp ep : GoTime) (price : Int) (subStart : GoTime)
    (subEnd : Option GoTime) : Int :=
  match subEnd with
  | none => if !(subStart.Before sp) && !(subStart.After ep) then price else 0
  | some e => price * calculateOverlapMonths sp ep subStart e

/-- The contribution of a stored record, parsing its date strings as the
loop does (the defaults are irrelevant once the strings are known valid). -/
def recordContribution (sp ep : GoTime) (sub : Subscription) : Int :=
  contribution sp ep sub.price ((parsePeriod sub.startDate).getD ⟨0⟩)
    (sub.endDate.map fun e => (parsePeriod e).getD ⟨0⟩)

/-- The date string 01-2025 of the spec's concrete scenarios. -/
def jan2025 : List Char := ['0', '1', '-', '2', '0', '2', '5']

/-- The date string 12-2025 of the spec's concrete scenarios. -/
def dec2025 : List Char := ['1', '2', '-', '2', '0', '2', '5']

/-- The date string 07-2025 of the spec's concrete scenario A. -/
def jul2025 : List Char := ['0', '7', '-', '2', '0', '2', '5']

/-- The date string 06-2024 of the spec's concrete scenario B. -/
def jun2024 : List Char := ['0', '6', '-', '2', '0', '2', '4']

/-- The date string 03-2025 of the spec's concrete scenario B. -/
def mar2025 : List Char := ['0', '3', '-', '2', '0', '2', '5']

/-- The date string 05-2025 of the spec's concrete scenario D. -/
def may2025 : List Char := ['0', '5', '-', '2', '0', '2', '5']

/-! Helper lemmas shared by the claim proofs. -/

/-- The calendar fields of an instant recombine into its month index. -/
theorem year_month_index (t : GoTime) : t.Year * 12 + (t.Month - 1) = t.monthIndex := by
  have h := Int.fmod_add_fdiv t.monthIndex 12
  unfold GoTime.Year GoTime.Month
  linarith

/-- The helper `maxTime` computes the maximum of the month indices. -/
theorem maxTime_index (a b : GoTime) :
    (maxTime a b).monthIndex = max a.monthIndex b.monthIndex := by
  unfold maxTime GoTime.After
  split <;> rename_i h <;> simp only [decide_eq_true_eq] at * <;> omega

/-- The helper `minTime` computes the minimum of the month indices. -/
theorem minTime_index (a b : GoTime) :
    (minTime a b).monthIndex = min a.monthIndex b.monthIndex := by
  unfold minTime GoTime.Before
  split <;> rename_i h <;> simp only [decide_eq_true_eq] at * <;> omega

/-- The overlap count in month-index form: zero when the intervals
miss, otherwise the inclusive length of the intersection. -/
theorem calculateOverlapMonths_index (a b c d : GoTime) :
    calculateOverlapMonths a b c d =
      if min b.monthIndex d.monthIndex < max a.monthIndex c.monthIndex then 0
      else min b.monthIndex d.monthIndex - max a.monthIndex c.monthIndex + 1 := by
  have h1 := year_month_index (maxTime a c)
  have h2 := year_month_index (minTime b d)
  have h3 := maxTime_index a c
  have h4 := minTime_index b d
  unfold calculateOverlapMonths GoTime.After
  simp only [decide_eq_true_eq]
  split <;> rename_i h5 <;> split <;> rename_i h6 <;> omega

/-- The instant of a `CalendarMonth` carries its index. -/
theorem toTime_index (c : CalendarMonth) : (toTime c).monthIndex = cmIndex c := rfl

/-- For valid months, the spec's strict order agrees with index
comparison. -/
theorem cmAfter_iff_index (a b : CalendarMonth) (ha : a.valid) (hb : b.valid) :
    cmAfter a b ↔ cmIndex b < cmIndex a := by
  obtain ⟨h1, h2, h3, h4⟩ := ha
  obtain ⟨h5, h6, h7, h8⟩ := hb
  unfold cmAfter cmIndex
  omega

/-- For valid months, the spec's non-strict order agrees with index
comparison. -/
theorem cmLe_iff_index (a b : CalendarMonth) (ha : a.valid) (hb : b.valid) :
    cmLe a b ↔ cmIndex a ≤ cmIndex b := by
  obtain ⟨h1, h2, h3, h4⟩ := ha
  obtain ⟨h5, h6, h7, h8⟩ := hb
  unfold cmLe cmIndex
  omega

/-- Decomposition of the validator: it accepts exactly the strings that
split into two components, both parsing as integers, with the month in
`[1,12]` and the year in `[1900,9999]`. -/
theorem validFormat_decomp (s : List Char) :
    isValidDateFormat s = true ↔
      ∃ p0 p1 m y, splitOnChar '-' s = [p0, p1] ∧ goAtoi p0 = some m ∧
        goAtoi p1 = some y ∧ 1 ≤ m ∧ m ≤ 12 ∧ 1900 ≤ y ∧ y ≤ 9999 := by
  rcases hsplit : splitOnChar '-' s with _ | ⟨p0, _ | ⟨p1, _ | ⟨p2, rest⟩⟩⟩
  · simp [isValidDateFormat, hsplit]
  · simp [isValidDateFormat, hsplit]
  · rcases h0 : goAtoi p0 with _ | m
    · simp [isValidDateFormat, hsplit, h0]
    · rcases h1 : goAtoi p1 with _ | y
      · simp [isValidDateFormat, hsplit, h0, h1]
      · simp [isValidDateFormat, hsplit, h0, h1, and_assoc]
  · simp [isValidDateFormat, hsplit]

/-- A string the validator accepts parses without faulting. -/
theorem parsePeriod_isSome_of_valid (s : List Char)
    (h : isValidDateFormat s = true) : (parsePeriod s).isSome = true := by
  obtain ⟨p0, p1, m, y, hsplit, -, -, -⟩ := (validFormat_decomp s).1 h
  unfold parsePeriod
  rw [hsplit]
  rfl

/-- The overlap count is never negative. -/
theorem calculateOverlapMonths_nonneg (a b c d : GoTime) :
    0 ≤ calculateOverlapMonths a b c d := by
  rw [calculateOverlapMonths_index]
  split_ifs <;> omega

/-- The 64-bit wrap is the identity on values already in machine range. -/
theorem wrap64_eq_self (n : Int) (h1 : -(2 ^ 63) ≤ n) (h2 : n < 2 ^ 63) :
    wrap64 n = n := by
  unfold wrap64
  omega

/-- On a record whose stored date strings are valid, whose price is
non-negative and whose exact contribution fits in 64 bits, the loop body
computes that exact contribution (the machine wrap is the identity there). -/
theorem subCost_eq_contribution (sp ep : GoTime) (sub : Subscription)
    (hs : isValidDateFormat sub.startDate = true)
    (he : ∀ e, sub.endDate = some e → isValidDateFormat e = true)
    (hp : 0 ≤ sub.price)
    (hb : recordContribution sp ep sub < 2 ^ 63) :
    subCost sp ep sub = some (recordContribution sp ep sub) := by
  obtain ⟨st, hst⟩ := Option.isSome_iff_exists.1 (parsePeriod_isSome_of_valid _ hs)
  rcases hend : sub.endDate with _ | e
  · unfold subCost recordContribution contribution
    simp [hst, hend]
  · obtain ⟨et, het⟩ :=
      Option.isSome_iff_exists.1 (parsePeriod_isSome_of_valid e (he e hend))
    have hrc : recordContribution sp ep sub
        = sub.price * calculateOverlapMonths sp ep st et := by
      unfold recordContribution contribution
      simp [hst, hend, het]
    have hnn : 0 ≤ sub.price * calculateOverlapMonths sp ep st et :=
      mul_nonneg hp (calculateOverlapMonths_nonneg sp ep st et)
    rw [hrc] at hb
    unfold subCost
    rw [hrc]
    simp only [hst, hend, het]
    rw [wrap64_eq_self (sub.price * calculateOverlapMonths sp ep st et)
      (by omega) hb]

/-- When every contribution is exact and non-negative and the accumulator
plus their sum stays below 2^63, the accumulation loop never wraps and
returns the accumulator plus the exact sum. -/
theorem loopTotal_eq_sum (sp ep : GoTime) (subs : List Subscription) (acc : Int)
    (h : ∀ sub ∈ subs, subCost sp ep sub = some (recordContribution sp ep sub)
      ∧ 0 ≤ recordContribution sp ep sub)
    (hacc : 0 ≤ acc)
    (hbound : acc + (subs.map (recordContribution sp ep)).sum < 2 ^ 63) :
    loopTotal sp ep subs acc
      = some (acc + (subs.map (recordContribution sp ep)).sum) := by
  induction subs generalizing acc with
  | nil => simp [loopTotal]
  | cons sub rest ih =>
    have hc := (h sub (List.mem_cons_self sub rest)).1
    have hcn := (h sub (List.mem_cons_self sub rest)).2
    have hrest : ∀ s ∈ rest,
        subCost sp ep s = some (recordContribution sp ep s)
          ∧ 0 ≤ recordContribution sp ep s :=
      fun s hs => h s (List.mem_cons_of_mem sub hs)
    have hrestsum : 0 ≤ (rest.map (recordContribution sp ep)).sum :=
      List.sum_nonneg (by
        intro x hx
        obtain ⟨s, hsm, rfl⟩ := List.mem_map.1 hx
        exact (hrest s hsm).2)
    have hsum : (List.map (recordContribution sp ep) (sub :: rest)).sum
        = recordContribution sp ep sub
          + (rest.map (recordContribution sp ep)).sum := by
      simp
    rw [hsum] at hbound ⊢
    have step : loopTotal sp ep (sub :: rest) acc
        = loopTotal sp ep rest (wrap64 (acc + recordContribution sp ep sub)) := by
      simp only [loopTotal]
      rw [hc]
    have hwrap : wrap64 (acc + recordContribution sp ep sub)
        = acc + recordContribution sp ep sub :=
      wrap64_eq_self _ (by omega) (by omega)
    rw [step, hwrap, ih _ hrest (by omega) (by omega)]
    rw [add_assoc]

/-- Contributions of records with non-negative price are non-negative. -/
theorem recordContribution_nonneg (sp ep : GoTime) (sub : Subscription)
    (hp : 0 ≤ sub.price) : 0 ≤ recordContribution sp ep sub := by
  unfold recordContribution contribution
  rcases sub.endDate with _ | e
  · simp only [Option.map_none']
    split_ifs <;> omega
  · simp only [Option.map_some']
    exact mul_nonneg hp (calculateOverlapMonths_nonneg _ _ _ _)

/-- The later of two valid months is valid. -/
theorem cmMax_valid (a b : CalendarMonth) (ha : a.valid) (hb : b.valid) :
    (cmMax a b).valid := by
  unfold cmMax
  split_ifs <;> assumption

/-- The earlier of two valid months is valid. -/
theorem cmMin_valid (a b : CalendarMonth) (ha : a.valid) (hb : b.valid) :
    (cmMin a b).valid := by
  unfold cmMin
  split_ifs <;> assumption

/-- On valid months, `cmMax` computes the maximum of the indices. -/
theorem cmMax_index (a b : CalendarMonth) (ha : a.valid) (hb : b.valid) :
    cmIndex (cmMax a b) = max (cmIndex a) (cmIndex b) := by
  unfold cmMax
  split_ifs with h
  · rw [cmAfter_iff_index a b ha hb] at h
    omega
  · rw [cmAfter_iff_index a b ha hb] at h
    omega

/-- On valid months, `cmMin` computes the minimum of the indices. -/
theorem cmMin_index (a b : CalendarMonth) (ha : a.valid) (hb : b.valid) :
    cmIndex (cmMin a b) = min (cmIndex a) (cmIndex b) := by
  unfold cmMin
  split_ifs with h
  · rw [cmAfter_iff_index b a hb ha] at h
    omega
  · rw [cmAfter_iff_index b a hb ha] at h
    omega

/-- The spec's overlap computation in month-index form, on valid months. -/
theorem specOverlapMonths_index (ws we ss se : CalendarMonth)
    (h1 : ws.valid) (h2 : we.valid) (h3 : ss.valid) (h4 : se.valid) :
    specOverlapMonths ws we ss se =
      if min (cmIndex we) (cmIndex se) < max (cmIndex ws) (cmIndex ss) then 0
      else min (cmIndex we) (cmIndex se) - max (cmIndex ws) (cmIndex ss) + 1 := by
  have hmaxv := cmMax_valid ws ss h1 h3
  have hminv := cmMin_valid we se h2 h4
  have hmaxi := cmMax_index ws ss h1 h3
  have hmini := cmMin_index we se h2 h4
  have hcmp := cmAfter_iff_index (cmMax ws ss) (cmMin we se) hmaxv hminv
  have hmaxy : (cmMax ws ss).year * 12 + ((cmMax ws ss).month - 1)
      = max (cmIndex ws) (cmIndex ss) := by
    rw [← hmaxi]; rfl
  have hminy : (cmMin we se).year * 12 + ((cmMin we se).month - 1)
      = min (cmIndex we) (cmIndex se) := by
    rw [← hmini]; rfl
  simp only [specOverlapMonths]
  split_ifs with ha hb hb
  · rfl
  · rw [hcmp, hmaxi, hmini] at ha
    omega
  · rw [hcmp, hmaxi, hmini] at ha
    omega
  · omega

/-- C1: for every query window and closed subscription interval over valid
CalendarMonths, `calculateOverlapMonths` returns 0 when
`max(windowStart, subStart)` is strictly after `min(windowEnd, subEnd)` and
otherwise the inclusive count
`(effectiveEnd.year - effectiveStart.year) * 12 +
(effectiveEnd.month - effectiveStart.month) + 1`, which is at least 1 in the
non-short-circuit case. -/
theorem calculateOverlapMonths_spec (ws we ss se : CalendarMonth)
    (h1 : ws.valid) (h2 : we.valid) (h3 : ss.valid) (h4 : se.valid) :
    calculateOverlapMonths (toTime ws) (toTime we) (toTime ss) (toTime se)
      = specOverlapMonths ws we ss se
    ∧ (¬ cmAfter (cmMax ws ss) (cmMin we se) → 1 ≤ specOverlapMonths ws we ss se) := by
  have hidx := calculateOverlapMonths_index (toTime ws) (toTime we) (toTime ss) (toTime se)
  simp only [toTime_index] at hidx
  have hspec := specOverlapMonths_index ws we ss se h1 h2 h3 h4
  constructor
  · rw [hidx, hspec]
  · intro hno
    rw [cmAfter_iff_index (cmMax ws ss) (cmMin we se)
      (cmMax_valid ws ss h1 h3) (cmMin_valid we se h2 h4)] at hno
    rw [cmMax_index ws ss h1 h3, cmMin_index we se h2 h4] at hno
    rw [hspec]
    split_ifs
    omega

/-- C1 witness: the theorem instantiated at the window 01-2025..12-2025 and
subscription 06-2024..03-2025 of scenario B. -/
theorem calculateOverlapMonths_spec_witness :
    calculateOverlapMonths (toTime ⟨1, 2025⟩) (toTime ⟨12, 2025⟩)
        (toTime ⟨6, 2024⟩) (toTime ⟨3, 2025⟩)
      = specOverlapMonths ⟨1, 2025⟩ ⟨12, 2025⟩ ⟨6, 2024⟩ ⟨3, 2025⟩
    ∧ (¬ cmAfter (cmMax ⟨1, 2025⟩ ⟨6, 2024⟩) (cmMin ⟨12, 2025⟩ ⟨3, 2025⟩) →
        1 ≤ specOverlapMonths ⟨1, 2025⟩ ⟨12, 2025⟩ ⟨6, 2024⟩ ⟨3, 2025⟩) :=
  calculateOverlapMonths_spec ⟨1, 2025⟩ ⟨12, 2025⟩ ⟨6, 2024⟩ ⟨3, 2025⟩
    (by decide) (by decide) (by decide) (by decide)

/-- C6: when a valid window is fully contained in a closed subscription
interval, the overlap is the inclusive span of the window, independent of
the subscription's extent; and the single-month base case
`overlapMonths(X, X, X, X)` is 1. -/
theorem overlap_containment (ws we ss se : CalendarMonth)
    (h1 : ws.valid) (h2 : we.valid) (h3 : ss.valid) (h4 : se.valid)
    (hw : cmLe ws we) (hs : cmLe ss ws) (he : cmLe we se) :
    calculateOverlapMonths (toTime ws) (toTime we) (toTime ss) (toTime se)
      = (we.year - ws.year) * 12 + (we.month - ws.month) + 1
    ∧ calculateOverlapMonths (toTime ws) (toTime ws) (toTime ws) (toTime ws) = 1 := by
  rw [cmLe_iff_index ws we h1 h2] at hw
  rw [cmLe_iff_index ss ws h3 h1] at hs
  rw [cmLe_iff_index we se h2 h4] at he
  obtain ⟨a1, a2, a3, a4⟩ := h1
  obtain ⟨b1, b2, b3, b4⟩ := h2
  have hidx := calculateOverlapMonths_index (toTime ws) (toTime we) (toTime ss) (toTime se)
  have hidx2 := calculateOverlapMonths_index (toTime ws) (toTime ws) (toTime ws) (toTime ws)
  simp only [toTime_index] at hidx hidx2
  unfold cmIndex at hidx hidx2 hw hs he
  rw [hidx, hidx2]
  constructor
  · split_ifs <;> omega
  · split_ifs <;> omega

/-- C6 witness: the theorem instantiated at scenario C, window
03-2025..03-2025 inside subscription 01-2025..12-2025, giving overlap 1. -/
theorem overlap_containment_witness :
    calculateOverlapMonths (toTime ⟨3, 2025⟩) (toTime ⟨3, 2025⟩)
        (toTime ⟨1, 2025⟩) (toTime ⟨12, 2025⟩) = 1
    ∧ calculateOverlapMonths (toTime ⟨3, 2025⟩) (toTime ⟨3, 2025⟩)
        (toTime ⟨3, 2025⟩) (toTime ⟨3, 2025⟩) = 1 := by
  have h := overlap_containment ⟨3, 2025⟩ ⟨3, 2025⟩ ⟨1, 2025⟩ ⟨12, 2025⟩
    (by decide) (by decide) (by decide) (by decide)
    (by decide) (by decide) (by decide)
  refine ⟨?_, h.2⟩
  rw [h.1]
  norm_num

/-- C7: extending the window end later while holding the window start and
the closed subscription interval fixed never decreases the overlap count. -/
theorem overlap_monotone_end (ws e1 e2 ss se : CalendarMonth)
    (_h0 : ws.valid) (h1 : e1.valid) (h2 : e2.valid) (_h3 : ss.valid) (_h4 : se.valid)
    (h : cmLe e1 e2) :
    calculateOverlapMonths (toTime ws) (toTime e1) (toTime ss) (toTime se)
      ≤ calculateOverlapMonths (toTime ws) (toTime e2) (toTime ss) (toTime se) := by
  rw [cmLe_iff_index e1 e2 h1 h2] at h
  have hidx1 := calculateOverlapMonths_index (toTime ws) (toTime e1) (toTime ss) (toTime se)
  have hidx2 := calculateOverlapMonths_index (toTime ws) (toTime e2) (toTime ss) (toTime se)
  simp only [toTime_index] at hidx1 hidx2
  rw [hidx1, hidx2]
  split_ifs <;> omega

/-- C7 witness: the theorem instantiated with window ends 03-2025 and
12-2025 over the scenario-B subscription. -/
theorem overlap_monotone_end_witness :
    calculateOverlapMonths (toTime ⟨1, 2025⟩) (toTime ⟨3, 2025⟩)
        (toTime ⟨6, 2024⟩) (toTime ⟨3, 2025⟩)
      ≤ calculateOverlapMonths (toTime ⟨1, 2025⟩) (toTime ⟨12, 2025⟩)
        (toTime ⟨6, 2024⟩) (toTime ⟨3, 2025⟩) :=
  overlap_monotone_end ⟨1, 2025⟩ ⟨3, 2025⟩ ⟨12, 2025⟩ ⟨6, 2024⟩ ⟨3, 2025⟩
    (by decide) (by decide) (by decide) (by decide) (by decide) (by decide)

/-- C9: on valid CalendarMonths, `After`/`Before` on the parsed time values
agree with the specified total order on (year, month) tuples. -/
theorem parsed_order_agrees_lex (A B : CalendarMonth) (hA : A.valid) (hB : B.valid) :
    ((toTime A).After (toTime B) = true ↔
      (B.year < A.year ∨ (A.year = B.year ∧ B.month < A.month)))
    ∧ ((toTime A).Before (toTime B) = true ↔
      (A.year < B.year ∨ (A.year = B.year ∧ A.month < B.month))) := by
  obtain ⟨a1, a2, a3, a4⟩ := hA
  obtain ⟨b1, b2, b3, b4⟩ := hB
  unfold GoTime.After GoTime.Before toTime timeDate
  simp only [decide_eq_true_eq]
  omega

/-- C9 witness: the theorem instantiated at 07-2025 and 01-2025. -/
theorem parsed_order_agrees_lex_witness :
    (((toTime ⟨7, 2025⟩).After (toTime ⟨1, 2025⟩) = true ↔
      ((2025 : Int) < 2025 ∨ ((2025 : Int) = 2025 ∧ (1 : Int) < 7)))
    ∧ ((toTime ⟨7, 2025⟩).Before (toTime ⟨1, 2025⟩) = true ↔
      ((2025 : Int) < 2025 ∨ ((2025 : Int) = 2025 ∧ (7 : Int) < 1)))) :=
  parsed_order_agrees_lex ⟨7, 2025⟩ ⟨1, 2025⟩ (by decide) (by decide)

/-- C10: `calculateOverlapMonths` is symmetric in its two intervals —
swapping the query window and the subscription interval never changes the
count. -/
theorem overlap_symm (a b c d : GoTime) :
    calculateOverlapMonths a b c d = calculateOverlapMonths c d a b := by
  rw [calculateOverlapMonths_index, calculateOverlapMonths_index]
  omega

/-- C4: date-format validation accepts a string iff it splits on the
separator into exactly two components, both parse as integers, the month
lies in `[1,12]` and the year in `[1900,9999]`; every other string is
rejected. -/
theorem isValidDateFormat_iff (s : List Char) :
    isValidDateFormat s = true ↔
      ∃ p0 p1 m y, splitOnChar '-' s = [p0, p1] ∧ goAtoi p0 = some m ∧
        goAtoi p1 = some y ∧ 1 ≤ m ∧ m ≤ 12 ∧ 1900 ≤ y ∧ y ≤ 9999 :=
  validFormat_decomp s

/-- C8: every string the validator accepts parses without faulting, while
the empty string (which the Update guard admits as an end date) makes
`parsePeriod` fault on the out-of-bounds second component, and that fault
propagates through the total-cost loop. -/
theorem parsePeriod_safety :
    (∀ s : List Char, isValidDateFormat s = true → (parsePeriod s).isSome = true)
    ∧ parsePeriod [] = none
    ∧ isValidDateFormat [] = false
    ∧ updateEndDateAccepted (some []) = true
    ∧ getTotalCost jan2025 dec2025 [⟨10, [], none⟩] = .error .indexOutOfRange :=
  ⟨fun s h => parsePeriod_isSome_of_valid s h, rfl, rfl, rfl, rfl⟩

/-- C8 witness: the validator accepts 07-2025 and the parser succeeds on
it. -/
theorem parsePeriod_safety_witness :
    isValidDateFormat jul2025 = true ∧ (parsePeriod jul2025).isSome = true :=
  ⟨by decide, parsePeriod_safety.1 jul2025 (by decide)⟩

/-- C2: an open-ended subscription contributes its price exactly once iff
its start month falls inclusively within the query window, and contributes
0 otherwise; in scenario A (window 01-2025..12-2025, price 400, start
07-2025, no end) the total is 400. -/
theorem open_ended_single_charge (sp ep subStart : GoTime) (price : Int)
    (sd : List Char) (hsd : parsePeriod sd = some subStart) :
    subCost sp ep ⟨price, sd, none⟩ =
      some (if sp.monthIndex ≤ subStart.monthIndex ∧ subStart.monthIndex ≤ ep.monthIndex
            then price else 0)
    ∧ getTotalCost jan2025 dec2025 [⟨400, jul2025, none⟩] = .ok 400 := by
  constructor
  · have hb : (!((subStart.Before sp)) && !((subStart.After ep))) = true ↔
        (sp.monthIndex ≤ subStart.monthIndex ∧ subStart.monthIndex ≤ ep.monthIndex) := by
      unfold GoTime.Before GoTime.After
      simp
    unfold subCost
    simp only [hsd]
    simp only [hb]
  · rfl

/-- C2 witness: the theorem instantiated at scenario A's parsed window and
subscription. -/
theorem open_ended_single_charge_witness :
    parsePeriod jul2025 = some (timeDate 2025 7)
    ∧ (subCost (timeDate 2025 1) (timeDate 2025 12) ⟨400, jul2025, none⟩ =
        some (if (timeDate 2025 1).monthIndex ≤ (timeDate 2025 7).monthIndex
                ∧ (timeDate 2025 7).monthIndex ≤ (timeDate 2025 12).monthIndex
              then (400 : Int) else 0)
       ∧ getTotalCost jan2025 dec2025 [⟨400, jul2025, none⟩] = .ok 400) :=
  ⟨rfl, open_ended_single_charge (timeDate 2025 1) (timeDate 2025 12)
    (timeDate 2025 7) 400 jul2025 rfl⟩

/-- C5: the total-cost operation reports a format error when either period
string is invalid, reports a range error exactly when both are valid but
the parsed start is strictly after the parsed end (so scenario D's window
05-2025..01-2025 never reaches aggregation), and otherwise proceeds to the
aggregation loop; a validation failure never produces a total. -/
theorem getTotalCost_validation (a b : List Char) (subs : List Subscription) :
    ((isValidDateFormat a = false ∨ isValidDateFormat b = false) →
        getTotalCost a b subs = .error .invalidFormat)
    ∧ (getTotalCost a b subs = .error .invalidRange ↔
        (isValidDateFormat a = true ∧ isValidDateFormat b = true ∧
          ∃ ta tb, parsePeriod a = some ta ∧ parsePeriod b = some tb ∧
            tb.monthIndex < ta.monthIndex))
    ∧ (∀ ta tb, isValidDateFormat a = true → isValidDateFormat b = true →
        parsePeriod a = some ta → parsePeriod b = some tb →
        ta.monthIndex ≤ tb.monthIndex →
        getTotalCost a b subs =
          (match loopTotal ta tb subs 0 with
           | none => Except.error CostError.indexOutOfRange
           | some t => Except.ok t))
    ∧ getTotalCost may2025 jan2025 subs = .error .invalidRange := by
  have main : ∀ ta tb, isValidDateFormat a = true → isValidDateFormat b = true →
      parsePeriod a = some ta → parsePeriod b = some tb →
      getTotalCost a b subs =
        (if tb.monthIndex < ta.monthIndex then .error .invalidRange
         else match loopTotal ta tb subs 0 with
           | none => Except.error CostError.indexOutOfRange
           | some t => Except.ok t) := by
    intro ta tb hva hvb hpa hpb
    unfold getTotalCost
    rw [hva, hvb, hpa, hpb]
    simp [GoTime.After]
  refine ⟨?_, ⟨?_, ?_⟩, ?_, rfl⟩
  · intro h
    rcases h with h | h <;> simp [getTotalCost, h]
  · intro h
    cases hva : isValidDateFormat a with
    | false =>
      rw [show getTotalCost a b subs = .error .invalidFormat by
        simp [getTotalCost, hva]] at h
      exact absurd h (by simp)
    | true =>
      cases hvb : isValidDateFormat b with
      | false =>
        rw [show getTotalCost a b subs = .error .invalidFormat by
          simp [getTotalCost, hvb]] at h
        exact absurd h (by simp)
      | true =>
        obtain ⟨ta, hpa⟩ :=
          Option.isSome_iff_exists.1 (parsePeriod_isSome_of_valid a hva)
        obtain ⟨tb, hpb⟩ :=
          Option.isSome_iff_exists.1 (parsePeriod_isSome_of_valid b hvb)
        rw [main ta tb hva hvb hpa hpb] at h
        refine ⟨rfl, rfl, ta, tb, hpa, hpb, ?_⟩
        by_contra hlt
        rw [if_neg hlt] at h
        rcases hloop : loopTotal ta tb subs 0 with _ | t <;>
          rw [hloop] at h <;> exact absurd h (by simp)
  · rintro ⟨hva, hvb, ta, tb, hpa, hpb, hlt⟩
    rw [main ta tb hva hvb hpa hpb, if_pos hlt]
  · intro ta tb hva hvb hpa hpb hle
    rw [main ta tb hva hvb hpa hpb, if_neg (by omega)]

/-- C4 witness: the validator accepts 07-2025, whose decomposition is
exhibited explicitly. -/
theorem isValidDateFormat_iff_witness :
    isValidDateFormat jul2025 = true :=
  (isValidDateFormat_iff jul2025).2
    ⟨['0', '7'], ['2', '0', '2', '5'], 7, 2025, rfl, rfl, rfl,
      by decide, by decide, by decide, by decide⟩

/-- C5 witness: scenario D's window 05-2025..01-2025 is rejected with the
range error on an empty record list. -/
theorem getTotalCost_validation_witness :
    getTotalCost may2025 jan2025 [] = .error .invalidRange :=
  (getTotalCost_validation may2025 jan2025 []).2.2.2

/-- C3 counterexample: all hypotheses of the original claim hold (valid
window 01-2025..12-2025, valid stored dates 06-2024..03-2025, non-negative
price 2^62), yet the program's 64-bit multiplication of price by the
3-month overlap wraps: the returned total is negative and is not the exact
sum 2^62 * 3. -/
theorem getTotalCost_sum_counterexample :
    getTotalCost jan2025 dec2025 [⟨4611686018427387904, jun2024, some mar2025⟩]
      = .ok (-4611686018427387904)
    ∧ (0 : Int) ≤ 4611686018427387904
    ∧ ¬ ((-4611686018427387904 : Int) = 4611686018427387904 * 3
          ∨ 0 ≤ (-4611686018427387904 : Int)) :=
  ⟨rfl, by decide, by decide⟩

/-- C3 (amended): on a window of valid period strings and records with
valid stored dates and non-negative prices whose exact contributions sum
below 2^63 — so the 64-bit arithmetic never wraps — the computed total is
exactly the sum of the per-record contributions and is non-negative;
scenario B (window 01-2025..12-2025, price 100, 06-2024..03-2025)
totals 300. -/
theorem getTotalCost_sum (a b : List Char) (subs : List Subscription)
    (ta tb : GoTime)
    (hva : isValidDateFormat a = true) (hvb : isValidDateFormat b = true)
    (hpa : parsePeriod a = some ta) (hpb : parsePeriod b = some tb)
    (hord : ta.monthIndex ≤ tb.monthIndex)
    (hsubs : ∀ sub ∈ subs, 0 ≤ sub.price ∧ isValidDateFormat sub.startDate = true ∧
      ∀ e, sub.endDate = some e → isValidDateFormat e = true)
    (hbound : (subs.map (recordContribution ta tb)).sum < 2 ^ 63) :
    getTotalCost a b subs = .ok ((subs.map (recordContribution ta tb)).sum)
    ∧ 0 ≤ (subs.map (recordContribution ta tb)).sum
    ∧ getTotalCost jan2025 dec2025 [⟨100, jun2024, some mar2025⟩] = .ok 300 := by
  have hnn : ∀ x ∈ subs.map (recordContribution ta tb), 0 ≤ x := by
    intro x hx
    obtain ⟨sub, hsub, rfl⟩ := List.mem_map.1 hx
    exact recordContribution_nonneg ta tb sub (hsubs sub hsub).1
  have hsum_nn : 0 ≤ (subs.map (recordContribution ta tb)).sum :=
    List.sum_nonneg hnn
  have hloop := loopTotal_eq_sum ta tb subs 0
    (fun sub hs =>
      ⟨subCost_eq_contribution ta tb sub (hsubs sub hs).2.1
          (hsubs sub hs).2.2 (hsubs sub hs).1
          (lt_of_le_of_lt
            (List.single_le_sum hnn _ (List.mem_map_of_mem _ hs)) hbound),
        recordContribution_nonneg ta tb sub (hsubs sub hs).1⟩)
    le_rfl (by simpa using hbound)
  refine ⟨?_, hsum_nn, rfl⟩
  unfold getTotalCost
  rw [hva, hvb, hpa, hpb]
  simp only [Bool.not_true, Bool.or_self, Bool.false_or, if_false]
  rw [show (ta.After tb) = false by
    unfold GoTime.After; simp; omega]
  rw [hloop]
  simp

/-- C3 witness: the amended theorem instantiated at scenario B, whose sole
contribution 300 is far below 2^63. -/
theorem getTotalCost_sum_witness :
    getTotalCost jan2025 dec2025 [⟨100, jun2024, some mar2025⟩] =
      .ok (([⟨100, jun2024, some mar2025⟩].map
        (recordContribution (timeDate 2025 1) (timeDate 2025 12))).sum)
    ∧ 0 ≤ (([(⟨100, jun2024, some mar2025⟩ : Subscription)].map
        (recordContribution (timeDate 2025 1) (timeDate 2025 12))).sum)
    ∧ getTotalCost jan2025 dec2025 [⟨100, jun2024, some mar2025⟩] = .ok 300 :=
  getTotalCost_sum jan2025 dec2025 [⟨100, jun2024, some mar2025⟩]
    (timeDate 2025 1) (timeDate 2025 12) (by decide) (by decide) rfl rfl
    (by decide) (by decide) (by decide)

end EmSubscription
